import Mathlib

/-
Verification of the nock interception-and-simulation engine
(src/lib/intercept.js and src/lib/request_overrider.js).

The development shallowly embeds the parts of the two source files that the
stated properties are about:

* a registry/consumption model of `intercept.js` (`add`/`remove`) together
  with the match-and-branch structure of the `end` function in
  `request_overrider.js` (which reply kinds reach the `remove` call, and
  whether they reach it synchronously or in a promise continuation);
* a response-synthesis model of the static/content-encoded reply paths,
  `continueWithResponseBody`, `parseFullReplyResult`,
  `continueWithFullResponse` and `selectDefaultHeaders`;
* the `emitChunk` streaming loop and its (lack of) abort re-checks;
* the overridden `req.write`.

JavaScript scheduling is flattened into explicit event lists: each model
function returns the observable events it would emit, in emission order.
Registry mutation that the source performs in a later scheduled continuation
is represented as an explicit deferred action, so the difference between
"synchronously with the match" and "after the callback resolves" is visible
in the model.
-/

namespace Nock

/-- A byte buffer (Node `Buffer`), as a list of byte values. -/
abbrev Buf := List Nat

/-- Raw header pairs in order, as in `response.rawHeaders`
(duplicates legal, order significant). -/
abbrev RawHeaders := List (String × String)

/-- A chunk pushed to the mocked response: either raw bytes (a `Buffer`) or a
JavaScript string (the JSON-stringified body is pushed as a string,
see request_overrider.js 434-438 and 499-503). -/
inductive ChunkVal where
  | bytes (b : Buf)
  | str (s : String)
deriving DecidableEq, Repr

/-- Observable events of the mocked request/response lifecycle, in emission
order. `asyncError` stands for `emitError` (an `error` event on the next
tick); `response` for `req.emit('response', ...)`; `chunk` for
`response.push(chunk)`; `endOfBody` for `response.push(null)`; `replied` for
`interceptor.scope.emit('replied', ...)`; `drainScheduled` for the
`setImmediate` drain of `req.write`; `callbackInvoked` for a user-supplied
write callback being called. -/
inductive RespEvent where
  | response
  | chunk (c : ChunkVal)
  | endOfBody
  | replied
  | asyncError (msg : String)
  | drainScheduled
  | callbackInvoked
deriving DecidableEq, Repr

/-- Events that constitute a (partial) response reaching the client:
the `response` event, a body chunk, or the end-of-body marker. -/
def isPartialResponseEvent : RespEvent → Bool
  | RespEvent.response => true
  | RespEvent.chunk _ => true
  | RespEvent.endOfBody => true
  | _ => false

/-- Events that are body chunks. -/
def isChunkEvent : RespEvent → Bool
  | RespEvent.chunk _ => true
  | _ => false

/-- The mocked `IncomingMessage` state the synthesizer populates:
`statusCode` (none until set) and the ordered raw header list. -/
structure MockResponse where
  statusCode : Option Int
  rawHeaders : RawHeaders
deriving DecidableEq, Repr

/-- Value of one hexadecimal digit, if the character is one. -/
def hexDigitVal (c : Char) : Option Nat :=
  if ('0' ≤ c ∧ c ≤ '9') then some (c.toNat - '0'.toNat)
  else if ('a' ≤ c ∧ c ≤ 'f') then some (c.toNat - 'a'.toNat + 10)
  else if ('A' ≤ c ∧ c ≤ 'F') then some (c.toNat - 'A'.toNat + 10)
  else none

/-- Decode pairs of hex digits into bytes, stopping at the first character
pair that is not two hex digits (the behaviour of Node
`Buffer.from(s, 'hex')`, which truncates at invalid input). -/
def hexPairsToBytes : List Char → List Nat
  | c1 :: c2 :: rest =>
    match hexDigitVal c1, hexDigitVal c2 with
    | some h, some l => (16 * h + l) :: hexPairsToBytes rest
    | _, _ => []
  | _ => []

/-- Node `Buffer.from(s, 'hex')`: the hex decoding used at
request_overrider.js 358 and 371. -/
def bufferFromHex (s : String) : Buf :=
  hexPairsToBytes s.data

/-- Node `Buffer.from(s)` / `Buffer.from(s, 'utf8')`: the UTF-8 bytes of a
string. -/
def utf8Bytes (s : String) : Buf :=
  s.toUTF8.toList.map (fun b => b.toNat)

/-- JavaScript `String.prototype.toLowerCase()` restricted to its
per-character action (header field names are ASCII): lower-case every
character. -/
def lowerString (s : String) : String :=
  String.mk (s.data.map Char.toLower)

/-- A scalar JavaScript value, plus plain objects with string values
(enough to express the full-reply callback results the claims are about:
status codes, string bodies, header objects, and ill-typed stand-ins). -/
inductive JsPrim where
  | undef
  | null
  | bool (b : Bool)
  | int (n : Int)
  | float
  | str (s : String)
  | obj (pairs : List (String × String))
deriving DecidableEq, Repr

/-- A JavaScript value as returned by a full-reply callback: either a scalar
(`prim`) or an array of scalars. `Number.isInteger` holds exactly of
`int`; `float` marks a non-integer number. -/
inductive JsVal where
  | prim (p : JsPrim)
  | arr (elems : List JsPrim)
deriving DecidableEq, Repr

/-- The string `typeof` would produce for a scalar value (used in the
error message of `parseFullReplyResult`). -/
def jsTypeofPrim : JsPrim → String
  | JsPrim.undef => "undefined"
  | JsPrim.null => "object"
  | JsPrim.bool _ => "boolean"
  | JsPrim.int _ => "number"
  | JsPrim.float => "number"
  | JsPrim.str _ => "string"
  | JsPrim.obj _ => "object"

/-- Minimal JSON string escaping (backslash and double quote). -/
def jsonEscape (s : String) : String :=
  (s.replace "\\" "\\\\").replace "\"" "\\\""

/-- A JSON string literal. -/
def jsonQuote (s : String) : String :=
  "\"" ++ jsonEscape s ++ "\""

/-- `JSON.stringify` of a scalar value (Node builtin, modelled to the
precision the claims need: some JSON text is produced). -/
def jsonOfPrim : JsPrim → String
  | JsPrim.undef => "null"
  | JsPrim.null => "null"
  | JsPrim.bool b => if b then "true" else "false"
  | JsPrim.int n => toString n
  | JsPrim.float => "0.5"
  | JsPrim.str s => jsonQuote s
  | JsPrim.obj ps =>
    "\x7b" ++ String.intercalate ","
      (ps.map (fun p => jsonQuote p.1 ++ ":" ++ jsonQuote p.2)) ++ "\x7d"

/-- The reply body carried by an interceptor or produced by a callback:
a string, a byte buffer, a stream (with the chunk sequence it will
deliver), an array (of strings: pre-encoded hex chunks in the
content-encoded path, JSON data otherwise), or any other value
(serialized as JSON). -/
inductive MockBody where
  | str (s : String)
  | buf (b : Buf)
  | stream (chunks : List Buf)
  | arr (items : List String)
  | other (v : JsPrim)
deriving DecidableEq, Repr

/-- `common.isStream(body)`: whether the body is a stream. -/
def isStreamBody : MockBody → Bool
  | MockBody.stream _ => true
  | _ => false

/-- `JSON.stringify` of a body value that is neither a buffer nor a stream
nor handled as a string (request_overrider.js 434). -/
def stringifyBody : MockBody → String
  | MockBody.str s => jsonQuote s
  | MockBody.buf _ => ""
  | MockBody.stream _ => ""
  | MockBody.arr items =>
    "[" ++ String.intercalate "," (items.map jsonQuote) ++ "]"
  | MockBody.other v => jsonOfPrim v

/-- Modelled from the spec: `DelayedBody` (module delayed_body.js, which is
not under src/) wraps a body and delivers it later as a stream; the spec
calls delay primitives external collaborators. It is represented as a
stream that eventually yields the body's bytes. -/
def delayedBodyChunks : MockBody → List Buf
  | MockBody.buf b => [b]
  | MockBody.str s => [utf8Bytes s]
  | MockBody.stream cs => cs
  | b => [utf8Bytes (stringifyBody b)]

/-- Modelled from the spec: `common.isContentEncoded(headers)` (common.js is
not under src/) reports whether the interceptor's headers declare a
content-encoding (spec section 4.3: "the record's headers indicate
content-encoding"; headers use lower-case field names throughout). -/
def isContentEncoded (headers : List (String × String)) : Bool :=
  (headers.lookup "content-encoding").isSome

/-- Modelled from the spec: `common.headersInputToRawArray` (common.js is not
under src/) turns the headers member of a full-reply result into raw header
pairs, preserving order; an absent headers member contributes nothing
("headers are appended to the response's raw header list"). -/
def headersInputToRawArray : JsPrim → RawHeaders
  | JsPrim.obj pairs => pairs
  | _ => []

/-- The binary-request heuristic of request_overrider.js 367-381: when the
request body was binary and the reply body is a string, reinterpret the
reply as hex, falling back to its UTF-8 bytes when the body is nonempty but
the hex decode is empty. -/
def binaryHeuristic (binaryRequest : Bool) (b : MockBody) : MockBody :=
  match binaryRequest, b with
  | true, MockBody.str s =>
    let dec := bufferFromHex s
    if s.length > 0 && dec.isEmpty then MockBody.buf (utf8Bytes s)
    else MockBody.buf dec
  | _, b => b

/-- `selectDefaultHeaders` (request_overrider.js 575-593): of the scope's
default headers, keep those whose case-insensitive field name is not
already present among the existing raw headers; returns `[]` early when
there are no defaults. -/
def selectDefaultHeaders (existingHeaders defaultHeaders : RawHeaders) :
    RawHeaders :=
  if defaultHeaders.isEmpty then []
  else
    let definedHeaders := existingHeaders.map (fun p => lowerString p.1)
    defaultHeaders.filter (fun p => !(definedHeaders.contains (lowerString p.1)))

/-- The push of selected default headers onto the response's raw header list
(request_overrider.js 450-455). -/
def pushDefaultHeaders (rawHeaders defaults : RawHeaders) : RawHeaders :=
  rawHeaders ++ selectDefaultHeaders rawHeaders defaults

/-- The response-body transformation of `continueWithResponseBody`
(request_overrider.js 416-437), applied after the delay wrapping: a stream
or buffer passes through, a string becomes its UTF-8 buffer, and anything
else is JSON-stringified with a `Content-Type: application/json` pair
pushed onto the raw headers. -/
def transformResponseBody (resp : MockResponse) (b : MockBody) :
    MockResponse × MockBody :=
  match b with
  | MockBody.stream cs => (resp, MockBody.stream cs)
  | MockBody.buf d => (resp, MockBody.buf d)
  | MockBody.str s => (resp, MockBody.buf (utf8Bytes s))
  | b =>
    ({ resp with
        rawHeaders := resp.rawHeaders ++ [("Content-Type", "application/json")] },
      MockBody.str (stringifyBody b))

/-- The `emitChunk` loop of `_respond` (request_overrider.js 506-520): each
scheduled iteration shifts one chunk and pushes it, then reschedules
itself; when the queue is empty it pushes `null`, marks the message
complete, and notifies the scope. The `aborted` flag is threaded through to
record that the loop body does not consult it. -/
def emitChunkLoop (aborted : Bool) : List ChunkVal → List RespEvent
  | [] => [RespEvent.endOfBody, RespEvent.replied]
  | c :: rest => RespEvent.chunk c :: emitChunkLoop aborted rest

/-- A run of the `emitChunk` loop in which `req.abort()` fires after `k`
iterations: the first `k` iterations observe `aborted = false`, the
remaining ones observe `aborted = true` (each iteration handles one
buffered chunk). -/
def runLoopAbortAt (bufs : List Buf) (k : Nat) : List RespEvent :=
  (bufs.take k).map (fun b => RespEvent.chunk (ChunkVal.bytes b)) ++
    emitChunkLoop true ((bufs.drop k).map ChunkVal.bytes)

/-- The `_respond` entry guard (request_overrider.js 487-521, non-stream
case): re-check `req.aborted`; when clear, emit the `response` event and
start the chunk loop. -/
def respondGate (aborted : Bool) (bufs : List Buf) : List RespEvent :=
  if aborted then []
  else RespEvent.response :: emitChunkLoop aborted (bufs.map ChunkVal.bytes)

/-- `continueWithResponseBody` (request_overrider.js 396-524), with the
registry consumption factored out (it is modelled by `endMatchStep` /
`processRequest` below) and scheduling flattened into the returned event
list. `body = none` corresponds to the content-encoded path, which supplies
`responseBuffers` instead. The `aborted` tests at request_overrider.js
446, 469 and 488 are kept in their source positions. -/
def continueWithResponseBody (resp : MockResponse) (body : Option MockBody)
    (responseBuffers : List ChunkVal) (delayInMs : Nat) (aborted : Bool)
    (defaults : RawHeaders) : MockResponse × List RespEvent :=
  let tb : MockResponse × Option MockBody :=
    match body with
    | none => (resp, none)
    | some b =>
      -- interceptor.delayInMs wraps the body in a DelayedBody (a stream)
      let b := if delayInMs > 0 then MockBody.stream (delayedBodyChunks b) else b
      let rb := transformResponseBody resp b
      (rb.1, some rb.2)
  let resp := tb.1
  let body := tb.2
  if aborted then (resp, [])
  else
    let resp := { resp with rawHeaders := pushDefaultHeaders resp.rawHeaders defaults }
    -- functional header values are evaluated in place here; header values in
    -- this model are already plain strings
    -- process.nextTick(respond): respond re-checks the aborted flag
    if aborted then (resp, [])
    -- _respond re-checks the aborted flag once more
    else if aborted then (resp, [])
    else
      match body with
      | some (MockBody.stream cs) =>
        (resp, RespEvent.response ::
          cs.map (fun c => RespEvent.chunk (ChunkVal.bytes c)) ++
          [RespEvent.endOfBody])
      | _ =>
        let buffers := responseBuffers ++
          (match body with
           | some (MockBody.buf d) => [ChunkVal.bytes d]
           | some (MockBody.str s) => [ChunkVal.str s]
           | _ => [])
        (resp, RespEvent.response :: emitChunkLoop aborted buffers)

/-- The interceptor and request state feeding the static-reply branches of
`end` (request_overrider.js 300-383): the interceptor's status code, raw
headers, header object, body, body delay, the owning scope's default reply
headers, whether the accumulated request body was binary, and the
request's aborted flag. -/
structure StaticSynthInput where
  statusCode : Int
  rawHeaders : RawHeaders
  headers : List (String × String)
  body : MockBody
  delayInMs : Nat
  binaryRequest : Bool
  aborted : Bool
  defaults : RawHeaders
deriving Repr

/-- The error raised when a content-encoded reply also requests a body delay
(request_overrider.js 348-350). -/
def encDelayMsg : String :=
  "Response delay of the body is currently not supported with content-encoded responses."

/-- The static-reply portion of `end` (request_overrider.js 300-383): build
the response from the interceptor's status and headers; in the
content-encoded non-stream case, reject a body delay with an asynchronous
error, otherwise hex-decode the body chunks into `responseBuffers`;
otherwise apply the binary-request heuristic and continue with the body. -/
def synthesizeStatic (it : StaticSynthInput) : MockResponse × List RespEvent :=
  let resp : MockResponse := { statusCode := some it.statusCode, rawHeaders := it.rawHeaders }
  if isContentEncoded it.headers && !(isStreamBody it.body) then
    if it.delayInMs > 0 then (resp, [RespEvent.asyncError encDelayMsg])
    else
      let bufferData : List String :=
        match it.body with
        | MockBody.arr l => l
        | MockBody.str s => [s]
        | _ => []
      let responseBuffers := bufferData.map (fun d => ChunkVal.bytes (bufferFromHex d))
      continueWithResponseBody resp none responseBuffers it.delayInMs it.aborted it.defaults
  else
    let responseBody := binaryHeuristic it.binaryRequest it.body
    continueWithResponseBody resp (some responseBody) [] it.delayInMs it.aborted it.defaults

/-- The destructuring default of `parseFullReplyResult`
(request_overrider.js 557): the body member defaults to the empty string
when it is absent or `undefined`. -/
def fullReplyBodyDefault : JsPrim → JsPrim
  | JsPrim.undef => JsPrim.str ""
  | b => b

/-- `parseFullReplyResult` (request_overrider.js 544-568): the result must
be an array of at most 3 elements; destructure `[status, body = '',
headers]`; the status must be an integer; on success set the response's
status code, append the converted headers to its raw header list, and
return the body. -/
def parseFullReplyResult (resp : MockResponse) (v : JsVal) :
    Except String (MockResponse × JsPrim) :=
  match v with
  | JsVal.prim _ =>
    Except.error "A single function provided to .reply MUST return an array"
  | JsVal.arr l =>
    if l.length > 3 then
      Except.error "The array returned from the .reply callback contains too many values"
    else
      let status := l.getD 0 JsPrim.undef
      let body := fullReplyBodyDefault (l.getD 1 JsPrim.undef)
      let headers := l.getD 2 JsPrim.undef
      match status with
      | JsPrim.int n =>
        Except.ok
          ({ resp with
              statusCode := some n,
              rawHeaders := resp.rawHeaders ++ headersInputToRawArray headers },
            body)
      | st =>
        Except.error ("Invalid " ++ jsTypeofPrim st ++ " value for status code")

/-- The body a full-reply callback hands to `continueWithResponseBody`:
a string stays a string, anything else reaches the JSON branch of the
transform. -/
def primToBody : JsPrim → MockBody
  | JsPrim.str s => MockBody.str s
  | v => MockBody.other v

/-- `continueWithFullResponse` (request_overrider.js 385-394): parse the
callback result; on failure emit the error asynchronously and stop (no
response is started); on success continue with the parsed body. -/
def continueWithFullResponse (resp : MockResponse) (defaults : RawHeaders)
    (delayInMs : Nat) (aborted : Bool) (result : JsVal) :
    MockResponse × List RespEvent :=
  match parseFullReplyResult resp result with
  | Except.error e => (resp, [RespEvent.asyncError e])
  | Except.ok (resp', body) =>
    continueWithResponseBody resp' (some (primToBody body)) [] delayInMs aborted defaults

/-- The shape the claim (and spec section 4.3) requires of a full-reply
result: an array of at most 3 elements whose first element is an integer
status. Stated from the spec's words, for comparison with
`parseFullReplyResult`. -/
def specValidFullReply : JsVal → Bool
  | JsVal.arr l =>
    decide (l.length ≤ 3) &&
    (match l.getD 0 JsPrim.undef with
     | JsPrim.int _ => true
     | _ => false)
  | _ => false

/-- Number of raw header pairs whose field name equals `name`
case-insensitively (`name` given in lower case). -/
def countHeaderCI (name : String) (raw : RawHeaders) : Nat :=
  (raw.filter (fun p => lowerString p.1 == name)).length

/-- A registered interceptor record, as seen by the registry/consumption
logic. `accepts` is the value of `i.match(options, requestBody)` for the
(fixed) request under consideration; the remaining flags describe which
reply branch of `end` the record takes: `hasErrorMessage` for an error
reply (request_overrider.js 283), `hasReplyFunction` /
`hasFullReplyFunction` for callback replies (306, 323) with
`callbackFails` true when the callback rejects or returns a malformed
full-reply result (so `continueWithResponseBody` is never reached),
`contentEncoded` / `bodyIsStream` / `delayInMs` for the content-encoded
branch (337-361). `persist` is `scope.shouldPersist()` and `counter` the
remaining-use count of intercept.js `remove`. -/
structure Record where
  id : Nat
  persist : Bool
  counter : Int
  accepts : Bool
  hasErrorMessage : Bool
  hasReplyFunction : Bool
  hasFullReplyFunction : Bool
  callbackFails : Bool
  contentEncoded : Bool
  bodyIsStream : Bool
  delayInMs : Nat
deriving DecidableEq, Repr

/-- `remove(interceptor)` from intercept.js 110-125, acting on the scopes
list of the record's base path: a persistent record is left alone (and not
decremented); otherwise the record's counter is decremented, and when it
reaches zero the first list entry that is the record is spliced out. -/
def removeRecord (target : Nat) : List Record → List Record
  | [] => []
  | r :: rest =>
    if r.id = target then
      if r.persist then r :: rest
      else if r.counter - 1 > 0 then { r with counter := r.counter - 1 } :: rest
      else rest
    else r :: removeRecord target rest

/-- What `end` has done to the matched record by the time it returns:
no match at all; the record was consumed synchronously (`remove` ran
inside `end`); consumption was deferred into the promise continuation of a
reply callback; or an error path returned before ever reaching `remove`. -/
inductive EndOutcome where
  | unmatched
  | consumedNow (rid : Nat)
  | deferredConsume (rid : Nat)
  | failedNoConsume (rid : Nat)
deriving DecidableEq, Repr

/-- The registry-visible behaviour of `end` (request_overrider.js 240-383):
find the first accepting record; an error reply consumes it synchronously
(284-286); a reply callback or full-reply callback defers
`continueWithResponseBody` — and with it the `remove` at 443 — into a
promise continuation (317-319, 331-333), and skips it entirely when the
callback fails (319, 333, 388-391); the content-encoded branch with a body
delay returns before `remove` (346-353); every other branch reaches
`continueWithResponseBody`, hence `remove`, synchronously (359, 383).
Returns the outcome together with the registry as it stands when `end`
returns. -/
def endMatchStep (reg : List Record) : EndOutcome × List Record :=
  match reg.find? (fun s => s.accepts) with
  | none => (EndOutcome.unmatched, reg)
  | some r =>
    if r.hasErrorMessage then (EndOutcome.consumedNow r.id, removeRecord r.id reg)
    else if r.hasReplyFunction || r.hasFullReplyFunction then
      if r.callbackFails then (EndOutcome.failedNoConsume r.id, reg)
      else (EndOutcome.deferredConsume r.id, reg)
    else if r.contentEncoded && !r.bodyIsStream then
      if r.delayInMs > 0 then (EndOutcome.failedNoConsume r.id, reg)
      else (EndOutcome.consumedNow r.id, removeRecord r.id reg)
    else (EndOutcome.consumedNow r.id, removeRecord r.id reg)

/-- Run the consumption a callback reply deferred into its promise
continuation (the `remove` at request_overrider.js 443 reached via
`.then(continueWithResponseBody)`). -/
def runDeferred (o : EndOutcome) (reg : List Record) : List Record :=
  match o with
  | EndOutcome.deferredConsume rid => removeRecord rid reg
  | _ => reg

/-- One request processed to completion: `end` runs, then any continuation
it scheduled runs before the next request starts (sequential, non-
overlapping requests). -/
def processRequest (reg : List Record) : EndOutcome × List Record :=
  let er := endMatchStep reg
  (er.1, runDeferred er.1 er.2)

/-- Process `n` sequential identical requests, collecting each request's
outcome and the final registry. -/
def runRequests : Nat → List Record → List EndOutcome × List Record
  | 0, reg => ([], reg)
  | n + 1, reg =>
    let or1 := processRequest reg
    let rest := runRequests n or1.2
    (or1.1 :: rest.1, rest.2)

/-- Whether the record's reply branch reaches the `remove` call at all
(on this request or in its continuation): error replies do, callbacks do
exactly when they do not fail, the content-encoded branch does unless a
body delay is configured, and plain static bodies do. -/
def replyConsumes (r : Record) : Bool :=
  if r.hasErrorMessage then true
  else if r.hasReplyFunction || r.hasFullReplyFunction then !r.callbackFails
  else if r.contentEncoded && !r.bodyIsStream then decide (r.delayInMs = 0)
  else true

/-- The request description the matcher passes to each record's predicate
(normalized options; the model keeps the members the predicate can
depend on). -/
structure ReqOptions where
  method : String
  path : String
deriving DecidableEq, Repr

/-- An interceptor as the matcher sees it: an identity and its `match`
predicate over the normalized options and accumulated request body. -/
structure MatcherRecord where
  id : Nat
  matchesReq : ReqOptions → String → Bool

/-- The matcher (request_overrider.js 245):
`interceptors.find(i => i.match(options, requestBody))` over the candidate
list in registration order (intercept.js `add` pushes each new record at
the end of its key's list). -/
def findMatchingInterceptor (reg : List MatcherRecord) (opts : ReqOptions)
    (body : String) : Option MatcherRecord :=
  reg.find? (fun i => i.matchesReq opts body)

/-- One call of the overridden `req.write` (request_overrider.js 126-147):
`hasChunk` is the truthiness of the buffer argument, `chunk` its bytes
(already converted from string via `Buffer.from` if needed),
`hasCallback` whether a callback argument was supplied. -/
structure WriteCall where
  hasChunk : Bool
  chunk : Buf
  hasCallback : Bool
deriving DecidableEq, Repr

/-- The overridden `req.write`: when not aborted, append the chunk to the
request body buffers and invoke the callback; when aborted, emit an
asynchronous error instead; in both cases schedule a `drain` event via
`setImmediate`, and return `false`. Returns (return value, new buffer
list, events). -/
def reqWrite (aborted : Bool) (requestBodyBuffers : List Buf) (c : WriteCall) :
    Bool × List Buf × List RespEvent :=
  if !aborted then
    (false,
      requestBodyBuffers ++ (if c.hasChunk then [c.chunk] else []),
      (if c.hasCallback then [RespEvent.callbackInvoked] else []) ++
        [RespEvent.drainScheduled])
  else
    (false, requestBodyBuffers,
      [RespEvent.asyncError "Request aborted", RespEvent.drainScheduled])

/-- The chunk loop emits exactly its queue, in order, then the end marker and
the replied notification — independently of the aborted flag, which its
body never consults. -/
theorem emitChunkLoop_eq (aborted : Bool) (l : List ChunkVal) :
    emitChunkLoop aborted l =
      l.map RespEvent.chunk ++ [RespEvent.endOfBody, RespEvent.replied] := by
  induction l with
  | nil => rfl
  | cons c rest ih => simp [emitChunkLoop, ih]

/-- When nothing in `pre` accepts and `r` does, the registration-order scan
finds `r`. -/
theorem find_accepts_append (pre post : List Record) (r : Record)
    (hpre : ∀ s ∈ pre, s.accepts = false) (hr : r.accepts = true) :
    (pre ++ r :: post).find? (fun s => s.accepts) = some r := by
  induction pre with
  | nil => simp [List.find?, hr]
  | cons a t ih =>
    have ha : a.accepts = false := hpre a (by simp)
    simp only [List.cons_append, List.find?, ha]
    exact ih (fun s hs => hpre s (by simp [hs]))

/-- Splicing a record out of a list in which its id occurs only at the
marked position. -/
theorem removeRecord_append (pre post : List Record) (r : Record)
    (hid : ∀ s ∈ pre, s.id ≠ r.id) :
    removeRecord r.id (pre ++ r :: post) =
      pre ++ (if r.persist then r :: post
              else if r.counter - 1 > 0 then { r with counter := r.counter - 1 } :: post
              else post) := by
  induction pre with
  | nil => simp [removeRecord]
  | cons a t ih =>
    have ha : a.id ≠ r.id := hid a (by simp)
    simp only [List.cons_append, removeRecord, if_neg ha]
    exact congrArg (List.cons a) (ih (fun s hs => hid s (by simp [hs])))

/-- `find?` returns the first list entry satisfying the predicate: if the
entry at index `i` satisfies it, the result is the entry at some index
`k ≤ i`, every entry before `k` failing the predicate. -/
theorem find_first_of_get {α : Type} (p : α → Bool) :
    ∀ (l : List α) (i : Nat) (hi : i < l.length),
      p (l.get ⟨i, hi⟩) = true →
      ∃ (k : Nat) (hk : k < l.length), k ≤ i ∧
        l.find? p = some (l.get ⟨k, hk⟩) ∧ p (l.get ⟨k, hk⟩) = true ∧
        ∀ (m : Nat) (hm : m < k), p (l.get ⟨m, Nat.lt_trans hm hk⟩) = false := by
  intro l
  induction l with
  | nil => intro i hi; exact absurd hi (by simp)
  | cons a t ih =>
    intro i hi hp
    by_cases hpa : p a = true
    · refine ⟨0, by simp, Nat.zero_le _, ?_, hpa, fun m hm => absurd hm (by omega)⟩
      simp [List.find?, hpa]
    · have hpa' : p a = false := by
        cases h : p a
        · rfl
        · exact absurd h hpa
      cases i with
      | zero => exact absurd hp (by simpa using hpa)
      | succ j =>
        have hj : j < t.length := by simpa using hi
        have hpj : p (t.get ⟨j, hj⟩) = true := by simpa using hp
        obtain ⟨k, hk, hki, hfind, hpk, hbefore⟩ := ih j hj hpj
        refine ⟨k + 1, by simpa using Nat.succ_lt_succ hk, Nat.succ_le_succ hki,
          ?_, by simpa using hpk, ?_⟩
        · simp only [List.find?, hpa']
          simpa using hfind
        · intro m hm
          cases m with
          | zero => simpa using hpa'
          | succ m' =>
            have hm' : m' < k := by omega
            simpa using hbefore m' hm'

/-- One sequential request against a registry in which `r` is the first
accepting record, its id is unique, it is non-persistent, and its reply
branch reaches the consume step: the request is matched, and afterwards
`r`'s use counter has been decremented — the record being spliced out when
it reaches zero. -/
theorem processRequest_consuming (pre post : List Record) (r : Record)
    (hpre : ∀ s ∈ pre, s.accepts = false)
    (hid : ∀ s ∈ pre, s.id ≠ r.id)
    (hacc : r.accepts = true)
    (hper : r.persist = false)
    (hcon : replyConsumes r = true) :
    (processRequest (pre ++ r :: post)).1 ≠ EndOutcome.unmatched ∧
    (processRequest (pre ++ r :: post)).2 =
      pre ++ (if r.counter - 1 > 0 then { r with counter := r.counter - 1 } :: post
              else post) := by
  have hfind := find_accepts_append pre post r hpre hacc
  have hrem := removeRecord_append pre post r hid
  by_cases he : r.hasErrorMessage = true
  · constructor
    · simp [processRequest, endMatchStep, hfind, he]
    · simp [processRequest, endMatchStep, hfind, he, runDeferred, hrem, hper]
  · have he' : r.hasErrorMessage = false := by
      cases h : r.hasErrorMessage
      · rfl
      · exact absurd h he
    by_cases hcb : (r.hasReplyFunction || r.hasFullReplyFunction) = true
    · have hfail : r.callbackFails = false := by
        simp [replyConsumes, he', hcb] at hcon
        simpa using hcon
      constructor
      · simp [processRequest, endMatchStep, hfind, he', hcb, hfail]
      · simp [processRequest, endMatchStep, hfind, he', hcb, hfail, runDeferred, hrem, hper]
    · have hcb' : (r.hasReplyFunction || r.hasFullReplyFunction) = false := by
        cases h : r.hasReplyFunction || r.hasFullReplyFunction
        · rfl
        · exact absurd h hcb
      by_cases henc : (r.contentEncoded && !r.bodyIsStream) = true
      · have hdel : r.delayInMs = 0 := by
          simp [replyConsumes, he', hcb', henc] at hcon
          exact hcon
        constructor
        · simp [processRequest, endMatchStep, hfind, he', hcb', henc, hdel]
        · simp [processRequest, endMatchStep, hfind, he', hcb', henc, hdel,
            runDeferred, hrem, hper]
      · have henc' : (r.contentEncoded && !r.bodyIsStream) = false := by
          cases h : r.contentEncoded && !r.bodyIsStream
          · rfl
          · exact absurd h henc
        constructor
        · simp [processRequest, endMatchStep, hfind, he', hcb', henc']
        · simp [processRequest, endMatchStep, hfind, he', hcb', henc',
            runDeferred, hrem, hper]

/-- C10: every call of the overridden request write operation returns
`false` — it never reports that the internal buffer accepted the chunk
with capacity to spare — and a drain event is scheduled after every call,
whatever the chunk, callback, or abort state. -/
theorem c10_write_always_false (aborted : Bool) (bufs : List Buf)
    (c : WriteCall) :
    (reqWrite aborted bufs c).1 = false ∧
    RespEvent.drainScheduled ∈ (reqWrite aborted bufs c).2.2 := by
  cases aborted <;> by_cases hc : c.hasCallback <;> simp [reqWrite, hc]

/-- C2 is false as stated: in a run of the chunk-emission loop where the
abort fires after the first of two chunks, the iterations that observe the
aborted flag still emit the second chunk — the scheduled continuation does
not re-check the flag before doing observable work. -/
theorem c2_counterexample :
    runLoopAbortAt [[1], [2]] 1 =
      [RespEvent.chunk (ChunkVal.bytes [1]), RespEvent.chunk (ChunkVal.bytes [2]),
        RespEvent.endOfBody, RespEvent.replied] ∧
    ((runLoopAbortAt [[1], [2]] 1).drop 1).any isChunkEvent = true := by
  decide

/-- C2 (amended): the aborted flag is re-checked at the continuation
boundaries up to and including the `_respond` step, so a request aborted
before the response event emits nothing further; but the per-chunk
continuation does not re-check the flag, so a request aborted mid-stream
still emits all remaining chunks — while the chunks already emitted before
the abort are preserved unchanged as the prefix of the event sequence. -/
theorem c2_abort_boundaries (bufs : List Buf) (k : Nat) :
    respondGate true bufs = [] ∧
    runLoopAbortAt bufs k =
      bufs.map (fun b => RespEvent.chunk (ChunkVal.bytes b)) ++
        [RespEvent.endOfBody, RespEvent.replied] ∧
    (runLoopAbortAt bufs k).take
        ((bufs.take k).map (fun b => RespEvent.chunk (ChunkVal.bytes b))).length =
      (bufs.take k).map (fun b => RespEvent.chunk (ChunkVal.bytes b)) := by
  refine ⟨by simp [respondGate], ?_, ?_⟩
  · rw [runLoopAbortAt, emitChunkLoop_eq, List.map_map, ← List.append_assoc]
    simp only [Function.comp_def]
    rw [← List.map_append, List.take_append_drop]
  · rw [runLoopAbortAt]
    exact List.take_left _ _

/-- C4: the matcher scans the candidate list in registration order and
returns the first record whose predicate accepts the request; when the
records at positions `i < j` both accept, the selected record sits at a
position `k ≤ i` (strictly before `j`), accepts the request, and every
record before it rejects — the earlier-registered record always wins, with
no backtracking. -/
theorem c4_first_match (reg : List MatcherRecord) (opts : ReqOptions)
    (body : String) (i j : Nat) (hij : i < j) (hj : j < reg.length)
    (hi : (reg.get ⟨i, Nat.lt_trans hij hj⟩).matchesReq opts body = true)
    (_hjacc : (reg.get ⟨j, hj⟩).matchesReq opts body = true) :
    ∃ (k : Nat) (hk : k < reg.length), k ≤ i ∧ k < j ∧
      findMatchingInterceptor reg opts body = some (reg.get ⟨k, hk⟩) ∧
      (reg.get ⟨k, hk⟩).matchesReq opts body = true ∧
      ∀ (m : Nat) (hm : m < k),
        (reg.get ⟨m, Nat.lt_trans hm hk⟩).matchesReq opts body = false := by
  obtain ⟨k, hk, hki, hfind, hpk, hbefore⟩ :=
    find_first_of_get (fun s => s.matchesReq opts body) reg i
      (Nat.lt_trans hij hj) hi
  exact ⟨k, hk, hki, Nat.lt_of_le_of_lt hki hij, hfind, hpk, hbefore⟩

/-- Witness for C4 at a concrete registry of two records that both accept
every request. -/
theorem c4_first_match_witness :
    ∃ (k : Nat) (hk : k <
        (List.length [MatcherRecord.mk 10 (fun _ _ => true),
          MatcherRecord.mk 11 (fun _ _ => true)])), k ≤ 0 ∧ k < 1 ∧
      findMatchingInterceptor
          [MatcherRecord.mk 10 (fun _ _ => true),
            MatcherRecord.mk 11 (fun _ _ => true)]
          (ReqOptions.mk "GET" "/a") "" =
        some ([MatcherRecord.mk 10 (fun _ _ => true),
          MatcherRecord.mk 11 (fun _ _ => true)].get ⟨k, hk⟩) ∧
      (([MatcherRecord.mk 10 (fun _ _ => true),
          MatcherRecord.mk 11 (fun _ _ => true)].get ⟨k, hk⟩).matchesReq
          (ReqOptions.mk "GET" "/a") "") = true ∧
      ∀ (m : Nat) (hm : m < k),
        (([MatcherRecord.mk 10 (fun _ _ => true),
          MatcherRecord.mk 11 (fun _ _ => true)].get
            ⟨m, Nat.lt_trans hm hk⟩).matchesReq
          (ReqOptions.mk "GET" "/a") "") = false :=
  c4_first_match
    [MatcherRecord.mk 10 (fun _ _ => true), MatcherRecord.mk 11 (fun _ _ => true)]
    (ReqOptions.mk "GET" "/a") "" 0 1 (by omega) (by simp) rfl rfl

/-- C8: header finalization appends the selected defaults after the
pre-existing raw header pairs, never reordering them (they remain the
prefix); every selected default comes from the scope's default list and
shares no field name, case-insensitively, with any pre-existing header;
and a default whose field name clashes with no existing header is indeed
appended. -/
theorem c8_default_headers (raw defaults : RawHeaders) :
    (pushDefaultHeaders raw defaults).take raw.length = raw ∧
    (∀ p ∈ selectDefaultHeaders raw defaults,
      p ∈ defaults ∧ ∀ q ∈ raw, lowerString q.1 ≠ lowerString p.1) ∧
    (∀ p ∈ defaults, (∀ q ∈ raw, lowerString q.1 ≠ lowerString p.1) →
      p ∈ pushDefaultHeaders raw defaults) := by
  refine ⟨?_, ?_, ?_⟩
  · rw [pushDefaultHeaders]
    exact List.take_left _ _
  · intro p hp
    rw [selectDefaultHeaders] at hp
    by_cases hd : defaults.isEmpty
    · rw [if_pos hd] at hp
      simp at hp
    · rw [if_neg hd] at hp
      simp only [List.mem_filter, Bool.not_eq_true', Bool.not_eq_false] at hp
      obtain ⟨hpd, hcont⟩ := hp
      refine ⟨hpd, fun q hq heq => ?_⟩
      have hmem : lowerString p.1 ∈ raw.map (fun x => lowerString x.1) :=
        List.mem_map.mpr ⟨q, hq, heq⟩
      have htrue : (raw.map (fun x => lowerString x.1)).contains (lowerString p.1) = true :=
        List.elem_iff.mpr hmem
      rw [htrue] at hcont
      cases hcont
  · intro p hp hnone
    rw [pushDefaultHeaders]
    refine List.mem_append_right _ ?_
    rw [selectDefaultHeaders]
    have hd : defaults.isEmpty = false := by
      cases defaults
      · simp at hp
      · rfl
    rw [hd]
    simp only [Bool.false_eq_true, if_false, List.mem_filter]
    refine ⟨hp, ?_⟩
    simp only [Bool.not_eq_true', Bool.not_eq_false]
    by_contra hcont
    simp only [Bool.not_eq_false] at hcont
    have hmem : lowerString p.1 ∈ raw.map (fun x => lowerString x.1) :=
      List.elem_iff.mp hcont
    obtain ⟨q, hq, heq⟩ := List.mem_map.mp hmem
    exact hnone q hq heq

/-- Witness for C8 at a concrete header list and default list: the default
whose name is absent is appended even though the names differ only in
case handling. -/
theorem c8_default_headers_witness :
    ("x-custom", "1") ∈ pushDefaultHeaders [("Content-Type", "text/plain")]
      [("x-custom", "1")] :=
  (c8_default_headers [("Content-Type", "text/plain")] [("x-custom", "1")]).2.2
    ("x-custom", "1") (by simp) (by intro q hq; simp at hq; rw [hq]; decide)

/-- C9 is false as stated: when the reply body is neither a buffer, a
stream, nor a string, the `Content-Type: application/json` pair is pushed
unconditionally — here a content-type header is already present, yet after
the transformation the response carries two content-type pairs, where the
claim requires the header to be appended only if none is present. -/
theorem c9_counterexample :
    countHeaderCI "content-type"
        (MockResponse.mk (some 200) [("Content-Type", "text/plain")]).rawHeaders = 1 ∧
    countHeaderCI "content-type"
        (transformResponseBody
          (MockResponse.mk (some 200) [("Content-Type", "text/plain")])
          (MockBody.other JsPrim.null)).1.rawHeaders = 2 := by
  decide

/-- C9 (amended): for every reply body that is neither a buffer, a stream,
nor a string, the body is serialized to JSON text and a
`Content-Type: application/json` pair is appended to the response's raw
headers unconditionally — even when a content-type header is already
present. -/
theorem c9_json_body (resp : MockResponse) (b : MockBody)
    (h : (match b with
          | MockBody.arr _ => true
          | MockBody.other _ => true
          | _ => false) = true) :
    transformResponseBody resp b =
      ({ resp with
          rawHeaders := resp.rawHeaders ++ [("Content-Type", "application/json")] },
        MockBody.str (stringifyBody b)) := by
  cases b with
  | str s => simp at h
  | buf d => simp at h
  | stream cs => simp at h
  | arr items => rfl
  | other v => rfl

/-- Witness for C9 (amended) at a concrete object body. -/
theorem c9_json_body_witness :
    transformResponseBody (MockResponse.mk none [])
        (MockBody.other (JsPrim.obj [("a", "b")])) =
      (MockResponse.mk none [("Content-Type", "application/json")],
        MockBody.str (stringifyBody (MockBody.other (JsPrim.obj [("a", "b")])))) :=
  c9_json_body (MockResponse.mk none []) (MockBody.other (JsPrim.obj [("a", "b")]))
    rfl

/-- C5: a full-reply callback result that is not an array of at most 3
elements with an integer status makes synthesis fail with a single
asynchronous error and emit no partial response (no response event, no
body chunk, no end marker); a valid result sets the response status to the
first element, appends the converted headers to the raw header list, and
defaults the body to the empty string when absent. -/
theorem c5_full_reply (resp : MockResponse) (defaults : RawHeaders)
    (delay : Nat) (aborted : Bool) (result : JsVal) :
    (specValidFullReply result = false →
      ∃ e, continueWithFullResponse resp defaults delay aborted result =
          (resp, [RespEvent.asyncError e]) ∧
        ∀ ev ∈ (continueWithFullResponse resp defaults delay aborted result).2,
          isPartialResponseEvent ev = false) ∧
    (∀ (l : List JsPrim) (n : Int), result = JsVal.arr l → l.length ≤ 3 →
      l.getD 0 JsPrim.undef = JsPrim.int n →
      parseFullReplyResult resp result =
        Except.ok
          ({ resp with
              statusCode := some n,
              rawHeaders := resp.rawHeaders ++
                headersInputToRawArray (l.getD 2 JsPrim.undef) },
            fullReplyBodyDefault (l.getD 1 JsPrim.undef))) := by
  constructor
  · intro hinvalid
    have herr : ∃ e, parseFullReplyResult resp result = Except.error e := by
      cases hres : parseFullReplyResult resp result with
      | error e => exact ⟨e, rfl⟩
      | ok v =>
        exfalso
        match result with
        | JsVal.prim p => simp [parseFullReplyResult] at hres
        | JsVal.arr l =>
          by_cases hlen : l.length > 3
          · simp [parseFullReplyResult, hlen] at hres
          · have hlen' : l.length ≤ 3 := by omega
            match hst : l[0]?.getD JsPrim.undef with
            | JsPrim.int n =>
              simp [specValidFullReply, List.getD, hlen', hst] at hinvalid
            | JsPrim.undef | JsPrim.null | JsPrim.bool _ | JsPrim.float
            | JsPrim.str _ | JsPrim.obj _ =>
              simp [parseFullReplyResult, hlen, hst] at hres
    obtain ⟨e, he⟩ := herr
    refine ⟨e, ?_, ?_⟩
    · simp [continueWithFullResponse, he]
    · intro ev hev
      simp [continueWithFullResponse, he] at hev
      rw [hev]
      rfl
  · intro l n hres hlen hst
    subst hres
    have hlen' : ¬(l.length > 3) := by omega
    have hst' : l[0]?.getD JsPrim.undef = JsPrim.int n := by
      simpa [List.getD] using hst
    simp [parseFullReplyResult, hlen', hst']

/-- Witness for C5 at the spec's scenario `[201, "created", ⟨x: y⟩]`. -/
theorem c5_full_reply_witness :
    parseFullReplyResult (MockResponse.mk none [])
        (JsVal.arr [JsPrim.int 201, JsPrim.str "created",
          JsPrim.obj [("x", "y")]]) =
      Except.ok
        ({ MockResponse.mk none [] with
            statusCode := some 201,
            rawHeaders := (MockResponse.mk none []).rawHeaders ++
              headersInputToRawArray
                ([JsPrim.int 201, JsPrim.str "created",
                  JsPrim.obj [("x", "y")]].getD 2 JsPrim.undef) },
          fullReplyBodyDefault
            ([JsPrim.int 201, JsPrim.str "created",
              JsPrim.obj [("x", "y")]].getD 1 JsPrim.undef)) :=
  (c5_full_reply (MockResponse.mk none []) [] 0 false
      (JsVal.arr [JsPrim.int 201, JsPrim.str "created",
        JsPrim.obj [("x", "y")]])).2
    [JsPrim.int 201, JsPrim.str "created", JsPrim.obj [("x", "y")]] 201
    rfl (by decide) rfl

/-- C6: a content-encoded, non-stream reply whose body is a chunk array and
which has no body delay is emitted as exactly those chunks — each pushed as
one response chunk, hex-decoded as given, in their original order, with
nothing concatenated or re-split — between the response event and the end
marker. -/
theorem c6_encoded_chunks (it : StaticSynthInput) (chunks : List String)
    (henc : isContentEncoded it.headers = true)
    (hbody : it.body = MockBody.arr chunks)
    (hdelay : it.delayInMs = 0)
    (hab : it.aborted = false) :
    (synthesizeStatic it).2 =
      RespEvent.response ::
        chunks.map (fun c => RespEvent.chunk (ChunkVal.bytes (bufferFromHex c))) ++
        [RespEvent.endOfBody, RespEvent.replied] := by
  simp only [synthesizeStatic, hbody, henc, hdelay, isStreamBody, Bool.not_false,
    Bool.and_true, Bool.true_and, gt_iff_lt, Nat.lt_irrefl, if_false,
    continueWithResponseBody, hab, Bool.false_eq_true]
  simp [continueWithResponseBody, emitChunkLoop_eq, List.map_map, Function.comp_def]

/-- Witness for C6 at the spec's chunk array example. -/
theorem c6_encoded_chunks_witness :
    (synthesizeStatic
        (StaticSynthInput.mk 200 [] [("content-encoding", "gzip")]
          (MockBody.arr ["1f8b", "0000"]) 0 false false [])).2 =
      RespEvent.response ::
        (["1f8b", "0000"].map
          (fun c => RespEvent.chunk (ChunkVal.bytes (bufferFromHex c)))) ++
        [RespEvent.endOfBody, RespEvent.replied] :=
  c6_encoded_chunks
    (StaticSynthInput.mk 200 [] [("content-encoding", "gzip")]
      (MockBody.arr ["1f8b", "0000"]) 0 false false [])
    ["1f8b", "0000"] rfl rfl rfl rfl

/-- C7: a content-encoded, non-stream reply that also requests a body delay
produces exactly one asynchronous error reporting the unsupported
combination, and no part of a response — no response event, no chunk, no
end marker — is emitted. -/
theorem c7_encoded_delay_error (it : StaticSynthInput)
    (henc : isContentEncoded it.headers = true)
    (hstream : isStreamBody it.body = false)
    (hdelay : 0 < it.delayInMs) :
    (synthesizeStatic it).2 = [RespEvent.asyncError encDelayMsg] ∧
    ∀ e ∈ (synthesizeStatic it).2, isPartialResponseEvent e = false := by
  have h : (synthesizeStatic it).2 = [RespEvent.asyncError encDelayMsg] := by
    simp [synthesizeStatic, henc, hstream, hdelay]
  refine ⟨h, ?_⟩
  rw [h]
  intro e he
  simp at he
  rw [he]
  rfl

/-- Witness for C7 at a concrete content-encoded interceptor with a body
delay. -/
theorem c7_encoded_delay_error_witness :
    (synthesizeStatic
        (StaticSynthInput.mk 200 [] [("content-encoding", "gzip")]
          (MockBody.arr ["1f8b"]) 5 false false [])).2 =
      [RespEvent.asyncError encDelayMsg] :=
  (c7_encoded_delay_error
    (StaticSynthInput.mk 200 [] [("content-encoding", "gzip")]
      (MockBody.arr ["1f8b"]) 5 false false [])
    rfl rfl (by decide)).1

/-- Unfolding: the first of `n + 1` requests contributes its outcome, the
rest continue on the updated registry. -/
theorem runRequests_succ_fst (n : Nat) (reg : List Record) :
    (runRequests (n + 1) reg).1 =
      (processRequest reg).1 :: (runRequests n (processRequest reg).2).1 := rfl

/-- Unfolding: after `n + 1` requests the registry is the one left by the
last `n` requests run on the updated registry. -/
theorem runRequests_succ_snd (n : Nat) (reg : List Record) :
    (runRequests (n + 1) reg).2 =
      (runRequests n (processRequest reg).2).2 := rfl

/-- The number of recorded outcomes equals the number of requests run. -/
theorem runRequests_length (n : Nat) :
    ∀ reg : List Record, (runRequests n reg).1.length = n := by
  induction n with
  | zero => intro reg; rfl
  | succ m ih => intro reg; rw [runRequests_succ_fst]; simp [ih]

/-- When no record in the registry accepts the request, `end` reports no
match and leaves the registry unchanged. -/
theorem processRequest_unmatched (reg : List Record)
    (h : ∀ s ∈ reg, s.accepts = false) :
    processRequest reg = (EndOutcome.unmatched, reg) := by
  have hfind : reg.find? (fun s => s.accepts) = none :=
    List.find?_eq_none.mpr (fun x hx => by simp [h x hx])
  simp [processRequest, endMatchStep, hfind, runDeferred]

/-- A persistent record survives a matched request unchanged: whichever
reply branch it takes, the `remove` call (immediate or deferred) leaves
the registry as it was. -/
theorem processRequest_persist (pre post : List Record) (r : Record)
    (hpre : ∀ s ∈ pre, s.accepts = false)
    (hid : ∀ s ∈ pre, s.id ≠ r.id)
    (hacc : r.accepts = true)
    (hper : r.persist = true) :
    (processRequest (pre ++ r :: post)).2 = pre ++ r :: post := by
  have hfind := find_accepts_append pre post r hpre hacc
  have hrem := removeRecord_append pre post r hid
  rw [hper] at hrem
  simp only [if_pos rfl] at hrem
  by_cases he : r.hasErrorMessage = true
  · simp [processRequest, endMatchStep, hfind, he, runDeferred, hrem]
  · have he' : r.hasErrorMessage = false := by
      cases h : r.hasErrorMessage
      · rfl
      · exact absurd h he
    by_cases hcb : (r.hasReplyFunction || r.hasFullReplyFunction) = true
    · by_cases hfail : r.callbackFails = true
      · simp [processRequest, endMatchStep, hfind, he', hcb, hfail, runDeferred]
      · have hfail' : r.callbackFails = false := by
          cases h : r.callbackFails
          · rfl
          · exact absurd h hfail
        simp [processRequest, endMatchStep, hfind, he', hcb, hfail', runDeferred,
          hrem]
    · have hcb' : (r.hasReplyFunction || r.hasFullReplyFunction) = false := by
        cases h : r.hasReplyFunction || r.hasFullReplyFunction
        · rfl
        · exact absurd h hcb
      by_cases henc : (r.contentEncoded && !r.bodyIsStream) = true
      · by_cases hdel : r.delayInMs > 0
        · simp [processRequest, endMatchStep, hfind, he', hcb', henc, hdel,
            runDeferred]
        · simp [processRequest, endMatchStep, hfind, he', hcb', henc, hdel,
            runDeferred, hrem]
      · have henc' : (r.contentEncoded && !r.bodyIsStream) = false := by
          cases h : r.contentEncoded && !r.bodyIsStream
          · rfl
          · exact absurd h henc
        simp [processRequest, endMatchStep, hfind, he', hcb', henc', runDeferred,
          hrem]

/-- Sequentially exhausting a non-persistent, consuming record with use
count `N`: all `N` requests are matched and afterwards the record is gone
from the registry. -/
theorem runRequests_consume (N : Nat) :
    ∀ (pre post : List Record) (r : Record),
      (∀ s ∈ pre ++ post, s.accepts = false) →
      (∀ s ∈ pre ++ post, s.id ≠ r.id) →
      r.accepts = true → r.persist = false → replyConsumes r = true →
      r.counter = (N : Int) → 1 ≤ N →
      (∀ o ∈ (runRequests N (pre ++ r :: post)).1, o ≠ EndOutcome.unmatched) ∧
      (runRequests N (pre ++ r :: post)).2 = pre ++ post := by
  induction N with
  | zero =>
    intro pre post r _ _ _ _ _ _ hN
    omega
  | succ n ih =>
    intro pre post r hacc0 hid0 hacc hper hcon hcnt _
    have hpre : ∀ s ∈ pre, s.accepts = false :=
      fun s hs => hacc0 s (List.mem_append_left _ hs)
    have hidp : ∀ s ∈ pre, s.id ≠ r.id :=
      fun s hs => hid0 s (List.mem_append_left _ hs)
    have hstep := processRequest_consuming pre post r hpre hidp hacc hper hcon
    cases n with
    | zero =>
      have hc1 : ¬(r.counter - 1 > 0) := by
        rw [hcnt]
        omega
      rw [if_neg hc1] at hstep
      constructor
      · intro o ho
        rw [runRequests_succ_fst] at ho
        simp only [List.mem_cons] at ho
        cases ho with
        | inl h1 =>
          rw [h1]
          exact hstep.1
        | inr h2 =>
          exact absurd h2 (by simp [runRequests])
      · rw [runRequests_succ_snd]
        show (runRequests 0 (processRequest (pre ++ r :: post)).2).2 = pre ++ post
        rw [show ∀ reg, (runRequests 0 reg).2 = reg from fun _ => rfl]
        exact hstep.2
    | succ m =>
      have hc2 : r.counter - 1 > 0 := by
        rw [hcnt]
        push_cast
        omega
      rw [if_pos hc2] at hstep
      have hcnt' : ({ r with counter := r.counter - 1 } : Record).counter =
          ((m + 1 : Nat) : Int) := by
        simp [hcnt]
      have ih' := ih pre post { r with counter := r.counter - 1 }
        hacc0 hid0 hacc hper hcon hcnt' (by omega)
      constructor
      · intro o ho
        rw [runRequests_succ_fst] at ho
        simp only [List.mem_cons] at ho
        cases ho with
        | inl h1 =>
          rw [h1]
          exact hstep.1
        | inr h2 =>
          refine ih'.1 o ?_
          rw [← hstep.2]
          exact h2
      · rw [runRequests_succ_snd]
        rw [hstep.2]
        exact ih'.2

/-- C3 (amended): for a registered non-persistent expectation with use
count `N ≥ 1` that is the only record accepting the request and whose
reply branch reaches the consume step (an error reply, a static or
content-encoded-without-delay body, or a callback that completes), exactly
`N` sequential matching requests succeed — each of the first `N` requests
is matched and the record is gone afterwards — and the `(N+1)`-th request
is treated as unmatched; a persistent record, by contrast, is never
auto-removed. -/
theorem c3_use_count (pre post : List Record) (r : Record) (N : Nat)
    (honly : ∀ s ∈ pre ++ post, s.accepts = false)
    (hid : ∀ s ∈ pre ++ post, s.id ≠ r.id)
    (hacc : r.accepts = true) :
    (r.persist = false → replyConsumes r = true → r.counter = (N : Int) →
      1 ≤ N →
      (∀ o ∈ (runRequests N (pre ++ r :: post)).1, o ≠ EndOutcome.unmatched) ∧
      (runRequests N (pre ++ r :: post)).1.length = N ∧
      (runRequests N (pre ++ r :: post)).2 = pre ++ post ∧
      (processRequest (runRequests N (pre ++ r :: post)).2).1 =
        EndOutcome.unmatched) ∧
    (r.persist = true → (processRequest (pre ++ r :: post)).2 = pre ++ r :: post) := by
  constructor
  · intro hper hcon hcnt hN
    have hmain := runRequests_consume N pre post r honly hid hacc hper hcon hcnt hN
    refine ⟨hmain.1, runRequests_length N _, hmain.2, ?_⟩
    rw [hmain.2]
    rw [processRequest_unmatched (pre ++ post) honly]
  · intro hper
    exact processRequest_persist pre post r
      (fun s hs => honly s (List.mem_append_left _ hs))
      (fun s hs => hid s (List.mem_append_left _ hs)) hacc hper

/-- Witness for C3 (amended) at a single static-body record with use count
2: both requests are matched, the registry is then empty, and a third
request is unmatched. -/
theorem c3_use_count_witness :
    (∀ o ∈ (runRequests 2 [Record.mk 7 false 2 true false false false false
        false false 0]).1, o ≠ EndOutcome.unmatched) ∧
    (runRequests 2 [Record.mk 7 false 2 true false false false false
        false false 0]).1.length = 2 ∧
    (runRequests 2 [Record.mk 7 false 2 true false false false false
        false false 0]).2 = [] ∧
    (processRequest (runRequests 2 [Record.mk 7 false 2 true false false false
        false false false 0]).2).1 = EndOutcome.unmatched :=
  (c3_use_count [] [] (Record.mk 7 false 2 true false false false false
      false false 0) 2
    (by simp) (by simp) rfl).1 rfl rfl rfl (by omega)

/-- C3 is false as stated: a non-persistent record with use count 1 whose
reply is content-encoded with a body delay errors without ever reaching
the consume step, so the second — `(N+1)`-th — otherwise-matching request
is matched again rather than treated as unmatched. -/
theorem c3_counterexample :
    (Record.mk 3 false 1 true false false false false true false 5).persist
        = false ∧
    (Record.mk 3 false 1 true false false false false true false 5).counter
        = 1 ∧
    (runRequests 2 [Record.mk 3 false 1 true false false false false true
        false 5]).1 =
      [EndOutcome.failedNoConsume 3, EndOutcome.failedNoConsume 3] ∧
    (runRequests 2 [Record.mk 3 false 1 true false false false false true
        false 5]).1.getD 1 EndOutcome.unmatched ≠ EndOutcome.unmatched := by
  refine ⟨rfl, rfl, ?_, ?_⟩ <;> decide

/-- C1 is false as stated: a single-use record whose reply is a reply
callback is still in the registry when `end` returns — the `remove` call
sits in the promise continuation, after the asynchronous reply generation
— so a second in-flight request arriving before the first callback
resolves matches the same single-use record again. -/
theorem c1_counterexample :
    (endMatchStep [Record.mk 0 false 1 true false true false false false
        false 0]).1 = EndOutcome.deferredConsume 0 ∧
    (endMatchStep [Record.mk 0 false 1 true false true false false false
        false 0]).2 =
      [Record.mk 0 false 1 true false true false false false false 0] ∧
    (endMatchStep (endMatchStep [Record.mk 0 false 1 true false true false
        false false false 0]).2).1 = EndOutcome.deferredConsume 0 := by
  refine ⟨?_, ?_, ?_⟩ <;> decide

/-- C1 (amended): when a non-persistent record's remaining-use counter
reaches zero on a successful match, the record is removed from the
registry synchronously with the match for error replies and static
(including content-encoded, no-delay) bodies — before any scheduled
continuation runs; but for reply-callback and full-reply-callback records
the registry is unchanged when `end` returns, the removal being deferred
to the callback's continuation, so a second in-flight request arriving
before the callback resolves can match the same single-use record
again. -/
theorem c1_consume_timing (pre post : List Record) (r : Record)
    (hpre : ∀ s ∈ pre, s.accepts = false)
    (hid : ∀ s ∈ pre, s.id ≠ r.id)
    (hacc : r.accepts = true)
    (hper : r.persist = false)
    (hcnt : r.counter ≤ 1) :
    (r.hasReplyFunction = false → r.hasFullReplyFunction = false →
      (r.contentEncoded = true → r.bodyIsStream = false → r.delayInMs = 0) →
      (endMatchStep (pre ++ r :: post)).1 = EndOutcome.consumedNow r.id ∧
      (endMatchStep (pre ++ r :: post)).2 = pre ++ post) ∧
    (r.hasErrorMessage = false →
      (r.hasReplyFunction = true ∨ r.hasFullReplyFunction = true) →
      r.callbackFails = false →
      (endMatchStep (pre ++ r :: post)).1 = EndOutcome.deferredConsume r.id ∧
      (endMatchStep (pre ++ r :: post)).2 = pre ++ r :: post ∧
      (processRequest (pre ++ r :: post)).2 = pre ++ post) := by
  have hfind := find_accepts_append pre post r hpre hacc
  have hrem := removeRecord_append pre post r hid
  rw [hper] at hrem
  simp only [Bool.false_eq_true, if_false] at hrem
  have hc1 : ¬(r.counter - 1 > 0) := by omega
  rw [if_neg hc1] at hrem
  constructor
  · intro hrf hfrf hencdel
    have hcb' : (r.hasReplyFunction || r.hasFullReplyFunction) = false := by
      rw [hrf, hfrf]
      rfl
    by_cases he : r.hasErrorMessage = true
    · constructor
      · simp [endMatchStep, hfind, he]
      · simp [endMatchStep, hfind, he, hrem]
    · have he' : r.hasErrorMessage = false := by
        cases h : r.hasErrorMessage
        · rfl
        · exact absurd h he
      by_cases henc : (r.contentEncoded && !r.bodyIsStream) = true
      · have hdel : r.delayInMs = 0 := by
          have h1 : r.contentEncoded = true := by
            cases h : r.contentEncoded
            · rw [h] at henc
              simp at henc
            · rfl
          have h2 : r.bodyIsStream = false := by
            cases h : r.bodyIsStream
            · rfl
            · rw [h] at henc
              simp at henc
          exact hencdel h1 h2
        constructor
        · simp [endMatchStep, hfind, he', hcb', henc, hdel]
        · simp [endMatchStep, hfind, he', hcb', henc, hdel, hrem]
      · have henc' : (r.contentEncoded && !r.bodyIsStream) = false := by
          cases h : r.contentEncoded && !r.bodyIsStream
          · rfl
          · exact absurd h henc
        constructor
        · simp [endMatchStep, hfind, he', hcb', henc']
        · simp [endMatchStep, hfind, he', hcb', henc', hrem]
  · intro he'' hcb hfail
    have hcbor : (r.hasReplyFunction || r.hasFullReplyFunction) = true := by
      cases hcb with
      | inl h => rw [h]; rfl
      | inr h => rw [h]; simp
    refine ⟨?_, ?_, ?_⟩
    · simp [endMatchStep, hfind, he'', hcbor, hfail]
    · simp [endMatchStep, hfind, he'', hcbor, hfail]
    · simp [processRequest, endMatchStep, hfind, he'', hcbor, hfail,
        runDeferred, hrem]

/-- Witness for C1 (amended) at a concrete single-use static-body record:
the record is gone from the registry synchronously, when `end` returns,
before any scheduled continuation. -/
theorem c1_consume_timing_witness :
    (endMatchStep [Record.mk 5 false 1 true false false false false false
        false 0]).1 = EndOutcome.consumedNow 5 ∧
    (endMatchStep [Record.mk 5 false 1 true false false false false false
        false 0]).2 = [] :=
  (c1_consume_timing [] [] (Record.mk 5 false 1 true false false false false
      false false 0)
    (by simp) (by simp) rfl rfl (by decide)).1 rfl rfl (by decide)

end Nock
